import Mathlib

/-!
# Verification of `raider/application.py` (the `Application` class)

Shallow embedding of the project orchestrator: construction from loaded
config, `authenticate`, and the session/project persistence protocol
(`write_session_file`, `load_session_file`, `write_project_file`).

Collaborators that are part of the repository but not present under the
sources given here (the serialization helper `create_hy_expression` from
`raider/utils.py`, the `hy.read`/`hy.eval` expression reader and evaluator,
`UserStore`, `Config`) are modelled from the spec, as marked on each
definition.
-/

/-! ## Serialization grammar (spec-modelled)

Modelled from the spec: the serialization helper (`create_hy_expression`,
`raider/utils.py`, not under the given sources) produces, per §4.4/§6, one
self-contained "assign name to literal" expression per binding, where a
literal is a quoted/escaped string or a brace-delimited mapping of string
to (string or mapping of string to string); every stored string, including
empty strings and strings holding delimiter characters, must be recovered
identically on reload. -/

def isWs (c : Char) : Bool :=
  c == ' ' || c == '\n' || c == '\t' || c == '\r'

def isSymChar (c : Char) : Bool :=
  !(isWs c) && c != '(' && c != ')' && c != '{' && c != '}' && c != '"'

deriving instance DecidableEq for Except

set_option maxRecDepth 10000 in
/-- Escape one character of a stored string: quote and backslash are
backslash-escaped, every other character stands for itself. -/
def escapeChar (c : Char) : List Char :=
  if c = '"' ∨ c = '\\' then ['\\', c] else [c]

def escapeStr : List Char → List Char
  | [] => []
  | c :: cs => escapeChar c ++ escapeStr cs

/-- A quoted string literal. -/
def serStr (s : List Char) : List Char :=
  '"' :: escapeStr s ++ ['"']

/-- A string-to-string mapping, as stored per user. -/
abbrev HDict1 := List (String × String)

/-- A username-to-mapping mapping, as stored per session binding. -/
abbrev HDict2 := List (String × HDict1)

def serDict1Body : HDict1 → List Char
  | [] => ['}']
  | (k, v) :: t => serStr k.data ++ ' ' :: serStr v.data ++ ' ' :: serDict1Body t

def serDict1 (d : HDict1) : List Char := '{' :: serDict1Body d

def serDict2Body : HDict2 → List Char
  | [] => ['}']
  | (k, v) :: t => serStr k.data ++ ' ' :: serDict1 v ++ ' ' :: serDict2Body t

def serDict2 (d : HDict2) : List Char := '{' :: serDict2Body d

/-- A literal value of the stored grammar: the files written by the code
hold either a string (project file) or a username-keyed mapping of
string-to-string mappings (session file). -/
inductive PVal where
  | str : String → PVal
  | dict2 : HDict2 → PVal
deriving DecidableEq, Repr

def serVal : PVal → List Char
  | .str s => serStr s.data
  | .dict2 d => serDict2 d

/-- One binding expression: assign `value` to the top-level `name`. -/
structure HExpr where
  name : String
  value : PVal
deriving DecidableEq, Repr

/-- Textual form of one binding expression, newline-terminated, as
`create_hy_expression` produces it. -/
def serExpr (e : HExpr) : List Char :=
  '(' :: 's' :: 'e' :: 't' :: 'v' :: ' ' :: e.name.data
    ++ ' ' :: serVal e.value ++ [')', '\n']

def serExprs : List HExpr → List Char
  | [] => []
  | e :: t => serExpr e ++ serExprs t

/-- The binding name consists only of symbol characters (true of the
names the code writes: `_cookies`, `_headers`, `_data`, `_active_user`). -/
def symNameB (s : String) : Bool := s.data.all isSymChar

/-- Number of parse steps a serialized inner mapping consumes. -/
def dict2Size (d : HDict2) : Nat :=
  d.foldr (fun p acc => 1 + p.2.length + acc) 0

/-- Number of parse steps a serialized value consumes. -/
def valSize : PVal → Nat
  | .str _ => 0
  | .dict2 d => dict2Size d

/-! ## Expression reader (spec-modelled)

Modelled from the spec: `hy.read` (external expression reader) returns one
expression at a time; end of stream is the distinguished `EOFError`
termination, while a malformed expression is a distinct, unhandled
failure. -/

def dropWs : List Char → List Char
  | [] => []
  | c :: rest => if isWs c then dropWs rest else c :: rest

def parseStrBody : List Char → Option (List Char × List Char)
  | [] => none
  | c :: rest =>
      if c = '"' then some ([], rest)
      else if c = '\\' then
        match rest with
        | [] => none
        | d :: rest2 =>
            match parseStrBody rest2 with
            | some (s, r) => some (d :: s, r)
            | none => none
      else
        match parseStrBody rest with
        | some (s, r) => some (c :: s, r)
        | none => none

def parseDict1 : Nat → List Char → Option (HDict1 × List Char)
  | _, [] => none
  | fuel, c :: rest =>
      if c = '}' then some ([], rest)
      else
        match fuel with
        | 0 => none
        | fuel2 + 1 =>
            if c = '"' then
              match parseStrBody rest with
              | some (k, rest1) =>
                  match rest1 with
                  | ' ' :: '"' :: rest2 =>
                      match parseStrBody rest2 with
                      | some (v, rest3) =>
                          match rest3 with
                          | ' ' :: rest4 =>
                              match parseDict1 fuel2 rest4 with
                              | some (d, r) =>
                                  some ((String.mk k, String.mk v) :: d, r)
                              | none => none
                          | _ => none
                      | none => none
                  | _ => none
              | none => none
            else none

def parseDict2 : Nat → List Char → Option (HDict2 × List Char)
  | _, [] => none
  | fuel, c :: rest =>
      if c = '}' then some ([], rest)
      else
        match fuel with
        | 0 => none
        | fuel2 + 1 =>
            if c = '"' then
              match parseStrBody rest with
              | some (k, rest1) =>
                  match rest1 with
                  | ' ' :: '{' :: rest2 =>
                      match parseDict1 fuel2 rest2 with
                      | some (v, rest3) =>
                          match rest3 with
                          | ' ' :: rest4 =>
                              match parseDict2 fuel2 rest4 with
                              | some (d, r) => some ((String.mk k, v) :: d, r)
                              | none => none
                          | _ => none
                      | none => none
                  | _ => none
              | none => none
            else none

def parseVal (fuel : Nat) : List Char → Option (PVal × List Char)
  | '"' :: rest =>
      match parseStrBody rest with
      | some (s, r) => some (.str (String.mk s), r)
      | none => none
  | '{' :: rest =>
      match parseDict2 fuel rest with
      | some (d, r) => some (.dict2 d, r)
      | none => none
  | _ => none

inductive ReadErr where
  | eof
  | malformed
deriving DecidableEq, Repr

/-- Read one expression off the front of the stream. Exhausted stream
(only whitespace left) is `eof`; anything unparsable is `malformed`. -/
def hyRead (l : List Char) : Except ReadErr (HExpr × List Char) :=
  match dropWs l with
  | [] => .error .eof
  | '(' :: 's' :: 'e' :: 't' :: 'v' :: ' ' :: rest =>
      let nm := rest.takeWhile isSymChar
      match rest.dropWhile isSymChar with
      | ' ' :: rest2 =>
          match parseVal rest2.length rest2 with
          | some (v, rest3) =>
              match rest3 with
              | ')' :: rest4 => .ok ({ name := String.mk nm, value := v }, rest4)
              | _ => .error .malformed
          | none => .error .malformed
      | _ => .error .malformed
  | _ => .error .malformed

/-! ## Evaluator namespace and read loop

Modelled from the spec: `hy.eval` evaluates a binding expression into the
ambient namespace; a later binding of the same name shadows an earlier
one within the same load pass. The read loop is the direct embedding of
`Application.load_session_file`'s `while True: hy.eval(hy.read(...))`
with `except EOFError` as the clean termination. -/

abbrev HyNamespace := List (String × PVal)

def evalExpr (ns : HyNamespace) (e : HExpr) : HyNamespace :=
  (e.name, e.value) :: ns

inductive LoadErr where
  | parseFailure
  | outOfFuel
deriving DecidableEq, Repr

def readLoop : Nat → HyNamespace → List Char → Except LoadErr HyNamespace
  | 0, _, _ => .error .outOfFuel
  | fuel + 1, ns, l =>
      match hyRead l with
      | .error .eof => .ok ns
      | .error .malformed => .error .parseFailure
      | .ok (e, rest) => readLoop fuel (evalExpr ns e) rest

/-- Look a username up inside the mapping bound to `nm` in the namespace. -/
def nsLookupDict2 (ns : HyNamespace) (nm user : String) : Option HDict1 :=
  match List.lookup nm ns with
  | some (PVal.dict2 d) => List.lookup user d
  | _ => none

/-! ## Filesystem and path helper -/

/-- The filesystem as a map from filename to content; `none` is an
absent file. -/
abbrev FS := String → Option String

def setFile (fs : FS) (name content : String) : FS :=
  fun f => if f = name then some content else fs f

/-- Modelled from the spec: `get_project_file` (`raider/utils.py`, not
under the given sources) locates a per-project file by project name. -/
def get_project_file (project file : String) : String :=
  project ++ "/" ++ file

/-! ## Domain objects -/

/-- A user record: the three string-to-string mappings the persistence
layer serializes. Modelled from the spec: `raider/user.py` is not under
the given sources. -/
structure User where
  username : String
  cookies : HDict1
  headers : HDict1
  data : HDict1
deriving DecidableEq, Repr

/-- Modelled from the spec: `UserStore` (`raider/user.py`) is a
name-indexed collection of user records with one designated default
(`active`) record; indexing an absent name is a lookup error. -/
structure UserStore where
  users : List (String × User)
  active : User
deriving DecidableEq, Repr

def UserStore.lookup (store : UserStore) (name : String) : Option User :=
  List.lookup name store.users

/-- Modelled from the spec: `Config` (`raider/config.py`) carries the
globally selected project name. -/
structure Config where
  active_project : String
deriving DecidableEq, Repr

/-- Opaque stand-in for the raw `_authentication` config value (the
`Authentication` collaborator is out of scope). -/
abbrev AuthData := List String

/-- Opaque stand-in for the raw `_functions` config value (the
`Functions` collaborator is out of scope). -/
abbrev FuncData := List String

/-- The raw mapping returned by `Config.load_project`: `none` fields are
absent keys. -/
structure ConfigOutput where
  users : Option UserStore
  authentication : Option AuthData
  functions : Option FuncData
  base_url : Option String
  active_user : Option String
deriving DecidableEq, Repr

/-- Python truthiness of an optional string: `None` and `""` are falsy. -/
def pyTruthyStr : Option String → Bool
  | none => false
  | some s => !(s == "")

/-- Python truthiness of the optional raw `_functions` value: `None` and
an empty collection are falsy. -/
def pyTruthyFunc : Option FuncData → Bool
  | none => false
  | some f => !(f == [])

/-- The orchestrator state built by `Application.__init__`.
`functions = none` models the attribute never having been assigned
(lines 83-85 only assign it under a truthy `_functions` value). -/
structure Application where
  name : String
  config : Config
  users : UserStore
  active_user : User
  authentication : AuthData
  functions : Option FuncData
  base_url : String
deriving DecidableEq, Repr

/-- A Python `KeyError`, carrying the missing key. -/
inductive InitError where
  | keyError (key : String)
deriving DecidableEq, Repr

/-- `Application.__init__` (lines 64-86): select/record the project name,
then read the loaded config: `output["_users"]` (KeyError when absent),
resolve the active user (truthy `_active_user` override indexes the
store, KeyError when the name is absent; otherwise the store's own
default), `output["_authentication"]` (KeyError when absent), optionally
`_functions` (assigned only when truthy), `output["_base_url"]` (KeyError
when absent). The global-config write performed when `name` is truthy is
an out-of-scope collaborator effect and is reflected only in `config`. -/
def Application.init (nameArg : Option String) (cfg : Config)
    (output : ConfigOutput) : Except InitError Application :=
  let cfg2 := if pyTruthyStr nameArg then
                { cfg with active_project := nameArg.getD "" }
              else cfg
  let name := if pyTruthyStr nameArg then nameArg.getD ""
              else cfg.active_project
  match output.users with
  | none => .error (.keyError "_users")
  | some store =>
    let activeRes : Except InitError User :=
      if pyTruthyStr output.active_user then
        match store.lookup (output.active_user.getD "") with
        | some u => .ok u
        | none => .error (.keyError (output.active_user.getD ""))
      else .ok store.active
    match activeRes with
    | .error e => .error e
    | .ok au =>
      match output.authentication with
      | none => .error (.keyError "_authentication")
      | some auth =>
        let fns := if pyTruthyFunc output.functions then output.functions
                   else none
        match output.base_url with
        | none => .error (.keyError "_base_url")
        | some burl =>
          .ok { name := name, config := cfg2, users := store,
                active_user := au, authentication := auth,
                functions := fns, base_url := burl }

/-- A Python `AttributeError`. -/
inductive AttrError where
  | attributeError
deriving DecidableEq, Repr

/-- Reading `self.functions`: an `AttributeError` when the attribute was
never assigned. -/
def Application.getFunctions (app : Application) : Except AttrError FuncData :=
  match app.functions with
  | some f => .ok f
  | none => .error .attributeError

/-! ## Persistence operations (lines 94-142) -/

/-- `load_session_file` (lines 115-131): locate the session file; when
absent only log (no error, no state change); when present read and
evaluate one expression at a time until `EOFError`. The fuel
`content.length + 1` bounds the loop iterations (each expression consumes
at least one character). -/
def Application.load_session_file (app : Application) (fs : FS)
    (ns : HyNamespace) : Except LoadErr HyNamespace :=
  match fs (get_project_file app.name "_userdata.hy") with
  | none => .ok ns
  | some content => readLoop (content.length + 1) ns content.data

/-- The three expressions `write_session_file` serializes (lines 102-110):
the cookies, headers and data mappings of every user, keyed by
username. -/
def sessionExprs (store : UserStore) : List HExpr :=
  [ { name := "_cookies",
      value := .dict2 (store.users.map fun p => (p.1, p.2.cookies)) },
    { name := "_headers",
      value := .dict2 (store.users.map fun p => (p.1, p.2.headers)) },
    { name := "_data",
      value := .dict2 (store.users.map fun p => (p.1, p.2.data)) } ]

def sessionValue (store : UserStore) : List Char :=
  serExprs (sessionExprs store)

/-- `write_session_file` (lines 94-113): first runs `load_session_file`
(whose failure would propagate), then truncates the session file and
writes the three serialized mappings recomputed from the live store. -/
def Application.write_session_file (app : Application) (fs : FS)
    (ns : HyNamespace) : Except LoadErr (FS × HyNamespace) :=
  match app.load_session_file fs ns with
  | .error e => .error e
  | .ok ns2 =>
      .ok (setFile fs (get_project_file app.name "_userdata.hy")
             (String.mk (sessionValue app.users)), ns2)

/-- The single expression `write_project_file` serializes (lines
137-139): the active username. -/
def projectValue (app : Application) : List Char :=
  serExpr { name := "_active_user", value := .str app.active_user.username }

/-- `write_project_file` (lines 133-142): truncate the project file and
write the active username as one binding expression. -/
def Application.write_project_file (app : Application) (fs : FS) : FS :=
  setFile fs (get_project_file app.name "_project.hy")
    (String.mk (projectValue app))

/-- Modelled from the spec: the config loader (out of scope) reloads the
project file by reading its single binding expression and taking the
string bound to `_active_user`. -/
def readActiveUser (fs : FS) (name : String) : Option String :=
  match fs (get_project_file name "_project.hy") with
  | none => none
  | some content =>
      match hyRead content.data with
      | .ok (e, _) =>
          if e.name == "_active_user" then
            match e.value with
            | .str s => some s
            | _ => none
          else none
      | .error _ => none

/-- A Python `KeyError` raised by `self.users[username]`. -/
inductive AuthError where
  | keyError (key : String)
deriving DecidableEq, Repr

/-- `authenticate` (lines 88-92): a truthy `username` re-resolves the
active user (KeyError when absent); `run_all` (the external
`AuthenticationRunner`, here the `runner` argument) mutates the active
user's record in place; then `write_project_file` persists the marker.
Returns the new state, the new filesystem, and the record that was
passed to the runner. -/
def Application.authenticate (app : Application) (fs : FS)
    (runner : User → Config → User) (username : Option String) :
    Except AuthError (Application × FS × User) :=
  match (if pyTruthyStr username then
           match app.users.lookup (username.getD "") with
           | some u => Except.ok { app with active_user := u }
           | none => Except.error (AuthError.keyError (username.getD ""))
         else Except.ok app : Except AuthError Application) with
  | .error e => .error e
  | .ok app2 =>
      let passed := app2.active_user
      let app3 := { app2 with active_user := runner passed app2.config }
      .ok (app3, app3.write_project_file fs, passed)

/-! ## Concrete fixtures used by witness and counterexample theorems -/

def userW1 : User :=
  { username := "alice", cookies := [("k\"x", "v\\y"), ("", "")],
    headers := [("h", "q r")], data := [] }

def userW2 : User :=
  { username := "bob", cookies := [], headers := [],
    data := [("d", "(setv)")] }

def userW3 : User := { username := "", cookies := [], headers := [], data := [] }

def storeW : UserStore :=
  { users := [("alice", userW1), ("bob", userW2)], active := userW2 }

def storeW2 : UserStore :=
  { users := [("", userW3), ("bob", userW2)], active := userW2 }

def appW : Application :=
  { name := "proj", config := { active_project := "proj" }, users := storeW,
    active_user := userW2, authentication := [], functions := none,
    base_url := "http://x" }

def appW2 : Application :=
  { name := "proj", config := { active_project := "proj" }, users := storeW2,
    active_user := userW2, authentication := [], functions := none,
    base_url := "http://x" }

def cfgW : Config := { active_project := "proj" }

def outW5 : ConfigOutput :=
  { users := some storeW2, authentication := some [], functions := none,
    base_url := some "http://x", active_user := some "" }

def outW5b : ConfigOutput :=
  { users := some storeW, authentication := some [], functions := none,
    base_url := some "http://x", active_user := some "alice" }

def outW8 : ConfigOutput :=
  { users := some storeW, authentication := some [], functions := none,
    base_url := some "http://x", active_user := none }

def outW8bad : ConfigOutput :=
  { users := none, authentication := some [], functions := none,
    base_url := some "http://x", active_user := none }

def fsEmpty : FS := fun _ => none

def appMin : Application :=
  { name := "proj", config := cfgW, users := storeW, active_user := userW2,
    authentication := [], functions := none, base_url := "http://x" }

/-! ## Round-trip and streaming lemmas for the serialization grammar -/

theorem parseStrBody_ser : ∀ (s rest : List Char),
    parseStrBody (escapeStr s ++ '"' :: rest) = some (s, rest) := by
  intro s
  induction s with
  | nil =>
      intro rest
      rw [escapeStr, List.nil_append, parseStrBody.eq_def]
      simp
  | cons c t ih =>
      intro rest
      by_cases hc : c = '"' ∨ c = '\\'
      · have he : escapeChar c = ['\\', c] := by rw [escapeChar, if_pos hc]
        have hq : ¬ (('\\' : Char) = '"') := by decide
        simp only [escapeStr, he, List.cons_append, List.append_assoc]
        rw [parseStrBody.eq_def]
        simp [if_neg hq, ih]
      · push_neg at hc
        have he : escapeChar c = [c] := by rw [escapeChar, if_neg (by tauto)]
        simp only [escapeStr, he, List.cons_append, List.append_assoc, List.nil_append]
        rw [parseStrBody.eq_def]
        simp [if_neg hc.1, if_neg hc.2, ih]

theorem parseDict1_ser : ∀ (d : HDict1) (fuel : Nat) (rest : List Char),
    d.length ≤ fuel →
    parseDict1 fuel (serDict1Body d ++ rest) = some (d, rest) := by
  intro d
  induction d with
  | nil =>
      intro fuel rest _
      rw [serDict1Body, List.cons_append, List.nil_append, parseDict1.eq_def]
      simp
  | cons kv t ih =>
      obtain ⟨k, v⟩ := kv
      intro fuel rest h
      match fuel with
      | 0 => simp at h
      | fuel2 + 1 =>
        have hlist : serDict1Body ((k, v) :: t) ++ rest
            = '"' :: (escapeStr k.data ++ '"' ::
                (' ' :: '"' :: (escapeStr v.data ++ '"' ::
                  (' ' :: (serDict1Body t ++ rest))))) := by
          simp [serDict1Body, serStr, List.append_assoc]
        rw [hlist, parseDict1.eq_def]
        have hqb : ¬ (('"' : Char) = '}') := by decide
        simp only [if_neg hqb, if_pos rfl, parseStrBody_ser]
        rw [ih fuel2 rest (by simpa using Nat.le_of_succ_le_succ h)]
        simp

theorem dict2Size_cons (k : String) (v : HDict1) (t : HDict2) :
    dict2Size ((k, v) :: t) = 1 + v.length + dict2Size t := by
  simp [dict2Size]

theorem parseDict2_ser : ∀ (d : HDict2) (fuel : Nat) (rest : List Char),
    dict2Size d ≤ fuel →
    parseDict2 fuel (serDict2Body d ++ rest) = some (d, rest) := by
  intro d
  induction d with
  | nil =>
      intro fuel rest _
      rw [serDict2Body, List.cons_append, List.nil_append, parseDict2.eq_def]
      simp
  | cons kv t ih =>
      obtain ⟨k, v⟩ := kv
      intro fuel rest h
      rw [dict2Size_cons] at h
      match fuel with
      | 0 => omega
      | fuel2 + 1 =>
        have hlist : serDict2Body ((k, v) :: t) ++ rest
            = '"' :: (escapeStr k.data ++ '"' ::
                (' ' :: '{' :: (serDict1Body v ++
                  (' ' :: (serDict2Body t ++ rest))))) := by
          simp [serDict2Body, serStr, serDict1, List.append_assoc]
        rw [hlist, parseDict2.eq_def]
        have hqb : ¬ (('"' : Char) = '}') := by decide
        have hd1 : parseDict1 fuel2 (serDict1Body v ++ (' ' :: (serDict2Body t ++ rest)))
            = some (v, ' ' :: (serDict2Body t ++ rest)) :=
          parseDict1_ser v fuel2 _ (by omega)
        simp only [if_neg hqb, if_pos rfl, parseStrBody_ser, hd1]
        rw [ih fuel2 rest (by omega)]
        simp

theorem parseVal_ser (v : PVal) (fuel : Nat) (rest : List Char)
    (h : valSize v ≤ fuel) :
    parseVal fuel (serVal v ++ rest) = some (v, rest) := by
  cases v with
  | str s =>
      have hlist : serVal (.str s) ++ rest
          = '"' :: (escapeStr s.data ++ '"' :: rest) := by
        simp [serVal, serStr, List.append_assoc]
      rw [hlist, parseVal.eq_def]
      simp [parseStrBody_ser]
  | dict2 d =>
      have hlist : serVal (.dict2 d) ++ rest
          = '{' :: (serDict2Body d ++ rest) := by
        simp [serVal, serDict2, List.append_assoc]
      rw [hlist, parseVal.eq_def]
      simp [parseDict2_ser d fuel rest (by simpa [valSize] using h)]

theorem serDict1Body_len (d : HDict1) : d.length ≤ (serDict1Body d).length := by
  induction d with
  | nil => simp [serDict1Body]
  | cons kv t ih =>
      obtain ⟨k, v⟩ := kv
      simp only [serDict1Body, serStr, List.length_cons, List.length_append]
      simp at ih ⊢
      omega

theorem dict2Size_le (d : HDict2) : dict2Size d ≤ (serDict2Body d).length := by
  induction d with
  | nil => simp [dict2Size, serDict2Body]
  | cons kv t ih =>
      obtain ⟨k, v⟩ := kv
      have h1 := serDict1Body_len v
      rw [dict2Size_cons]
      simp only [serDict2Body, serStr, serDict1, List.length_append, List.length_cons]
      simp at ih h1 ⊢
      omega

theorem valSize_le (v : PVal) : valSize v ≤ (serVal v).length := by
  cases v with
  | str s => simp [valSize]
  | dict2 d =>
      have := dict2Size_le d
      simp only [valSize, serVal, serDict2, List.length_cons]
      omega

theorem takeWhile_append_all {α : Type} (p : α → Bool) :
    ∀ (xs ys : List α), (∀ x ∈ xs, p x = true) →
      (xs ++ ys).takeWhile p = xs ++ ys.takeWhile p := by
  intro xs ys h
  induction xs with
  | nil => simp
  | cons a t ih =>
      have ha : p a = true := h a (by simp)
      simp only [List.cons_append, List.takeWhile_cons, ha, if_true]
      rw [ih fun x hx => h x (by simp [hx])]

theorem dropWhile_append_all {α : Type} (p : α → Bool) :
    ∀ (xs ys : List α), (∀ x ∈ xs, p x = true) →
      (xs ++ ys).dropWhile p = ys.dropWhile p := by
  intro xs ys h
  induction xs with
  | nil => simp
  | cons a t ih =>
      have ha : p a = true := h a (by simp)
      simp only [List.cons_append, List.dropWhile_cons, ha, if_true]
      exact ih fun x hx => h x (by simp [hx])

theorem hyRead_ser (e : HExpr) (rest : List Char)
    (h : symNameB e.name = true) :
    hyRead (serExpr e ++ rest) = .ok (e, '\n' :: rest) := by
  have hall : ∀ c ∈ e.name.data, isSymChar c = true := by
    simpa [symNameB, List.all_eq_true] using h
  have hlist : serExpr e ++ rest
      = '(' :: 's' :: 'e' :: 't' :: 'v' :: ' ' ::
          (e.name.data ++ (' ' :: (serVal e.value ++ ')' :: '\n' :: rest))) := by
    simp [serExpr, List.append_assoc]
  rw [hlist, hyRead]
  have hdw : dropWs ('(' :: 's' :: 'e' :: 't' :: 'v' :: ' ' ::
      (e.name.data ++ (' ' :: (serVal e.value ++ ')' :: '\n' :: rest))))
      = '(' :: 's' :: 'e' :: 't' :: 'v' :: ' ' ::
          (e.name.data ++ (' ' :: (serVal e.value ++ ')' :: '\n' :: rest))) := by
    rw [dropWs.eq_def]
    simp [isWs]
  rw [hdw]
  have hsp : isSymChar ' ' = false := by decide
  have htw : List.takeWhile isSymChar
      (e.name.data ++ (' ' :: (serVal e.value ++ ')' :: '\n' :: rest)))
      = e.name.data := by
    rw [takeWhile_append_all isSymChar _ _ hall, List.takeWhile_cons, hsp]
    simp
  have hdwh : List.dropWhile isSymChar
      (e.name.data ++ (' ' :: (serVal e.value ++ ')' :: '\n' :: rest)))
      = ' ' :: (serVal e.value ++ ')' :: '\n' :: rest) := by
    rw [dropWhile_append_all isSymChar _ _ hall, List.dropWhile_cons, hsp]
    simp
  simp only [htw, hdwh]
  have hpv : parseVal ((serVal e.value).length + (rest.length + 1 + 1))
      (serVal e.value ++ ')' :: '\n' :: rest)
      = some (e.value, ')' :: '\n' :: rest) :=
    parseVal_ser _ _ _ (by have := valSize_le e.value; omega)
  simp [hpv]

theorem hyRead_ser_nil (e : HExpr) (h : symNameB e.name = true) :
    hyRead (serExpr e) = .ok (e, ['\n']) := by
  have h2 := hyRead_ser e [] h
  rwa [List.append_nil] at h2

theorem dropWs_cons_ws (c : Char) (l : List Char) (h : isWs c = true) :
    dropWs (c :: l) = dropWs l := by
  rw [dropWs.eq_def]
  simp [h]

theorem hyRead_eof_of_ws (l : List Char) (h : dropWs l = []) :
    hyRead l = .error .eof := by
  rw [hyRead, h]

theorem hyRead_cons_nl (l : List Char) :
    hyRead ('\n' :: l) = hyRead l := by
  rw [hyRead, hyRead, dropWs_cons_ws '\n' l (by decide)]

theorem readLoop_ws_done (fuel : Nat) (ns : HyNamespace) (l : List Char)
    (h : dropWs l = []) :
    readLoop (fuel + 1) ns l = .ok ns := by
  rw [readLoop, hyRead_eof_of_ws l h]

theorem readLoop_cons_nl (fuel : Nat) (ns : HyNamespace) (l : List Char) :
    readLoop fuel ns ('\n' :: l) = readLoop fuel ns l := by
  cases fuel with
  | zero => rfl
  | succ f => rw [readLoop, readLoop, hyRead_cons_nl]

theorem readLoop_ser_step (fuel : Nat) (ns : HyNamespace) (e : HExpr)
    (rest : List Char) (h : symNameB e.name = true) :
    readLoop (fuel + 1) ns (serExpr e ++ rest)
      = readLoop fuel (evalExpr ns e) ('\n' :: rest) := by
  rw [readLoop, hyRead_ser e rest h]

theorem readLoop_serExprs : ∀ (es : List HExpr) (fuel : Nat)
    (ns : HyNamespace) (rest : List Char),
    (∀ e ∈ es, symNameB e.name = true) →
    readLoop (es.length + fuel) ns (serExprs es ++ rest)
      = readLoop fuel (es.foldl evalExpr ns) rest := by
  intro es
  induction es with
  | nil => intro fuel ns rest _; simp [serExprs]
  | cons e t ih =>
      intro fuel ns rest h
      have he : symNameB e.name = true := h e (by simp)
      have hlen : (e :: t).length + fuel = (t.length + fuel) + 1 := by
        simp; omega
      rw [hlen]
      have hlist : serExprs (e :: t) ++ rest = serExpr e ++ (serExprs t ++ rest) := by
        simp [serExprs, List.append_assoc]
      rw [hlist, readLoop_ser_step _ _ _ _ he, readLoop_cons_nl,
          ih fuel (evalExpr ns e) rest (fun x hx => h x (by simp [hx]))]
      simp

theorem serExprs_len (es : List HExpr) : es.length ≤ (serExprs es).length := by
  induction es with
  | nil => simp [serExprs]
  | cons e t ih =>
      simp only [serExprs, List.length_append, List.length_cons, serExpr]
      simp at ih ⊢
      omega

theorem load_session_file_setFile (app : Application) (fs : FS)
    (ns : HyNamespace) (l : List Char) :
    app.load_session_file
      (setFile fs (get_project_file app.name "_userdata.hy") (String.mk l)) ns
      = readLoop (l.length + 1) ns l := by
  simp [Application.load_session_file, setFile]

theorem readLoop_full (es : List HExpr) (ns : HyNamespace)
    (h : ∀ e ∈ es, symNameB e.name = true) :
    readLoop ((serExprs es).length + 1) ns (serExprs es)
      = .ok (es.foldl evalExpr ns) := by
  have hle := serExprs_len es
  obtain ⟨f2, hf2⟩ : ∃ f2, (serExprs es).length + 1 = es.length + (f2 + 1) :=
    ⟨(serExprs es).length - es.length, by omega⟩
  rw [hf2, show serExprs es = serExprs es ++ [] from (List.append_nil _).symm,
      readLoop_serExprs es (f2 + 1) ns [] h, readLoop_ws_done f2 _ [] rfl]

theorem lookup_map_fst {β : Type} [BEq String] [LawfulBEq String]
    (f : User → β) :
    ∀ (l : List (String × User)) (p : String × User), p ∈ l →
      (l.map Prod.fst).Nodup →
      List.lookup p.1 (l.map fun q => (q.1, f q.2)) = some (f p.2) := by
  intro l
  induction l with
  | nil => intro p hp; simp at hp
  | cons q t ih =>
      intro p hp hnd
      simp only [List.map_cons] at hnd
      have hnd1 := List.nodup_cons.1 hnd
      simp only [List.map_cons, List.lookup]
      rcases List.mem_cons.1 hp with rfl | hpt
      · simp
      · have hne : p.1 ≠ q.1 := by
          intro hq
          exact hnd1.1 (hq ▸ List.mem_map.2 ⟨p, hpt, rfl⟩)
        have hbeq : (p.1 == q.1) = false := by
          simpa [beq_eq_false_iff_ne] using hne
        rw [hbeq]
        exact ih p hpt hnd1.2

theorem sessionExprs_names (store : UserStore) :
    ∀ e ∈ sessionExprs store, symNameB e.name = true := by
  intro e he
  simp only [sessionExprs, List.mem_cons, List.mem_singleton] at he
  rcases he with rfl | rfl | rfl | h
  · show symNameB "_cookies" = true
    decide
  · show symNameB "_headers" = true
    decide
  · show symNameB "_data" = true
    decide
  · simp at h

theorem get_project_file_ne (n : String) :
    get_project_file n "_userdata.hy" ≠ get_project_file n "_project.hy" := by
  intro h
  have h2 := congrArg String.length h
  simp [get_project_file, String.length_append] at h2
  exact absurd h2 (by decide)

/-! ## Claim theorems -/

/-- C1: for every UserStore with any number of users, each holding arbitrary string-keyed/string-valued cookies, headers and data mappings (including empty mappings, empty strings and strings holding delimiter characters of the grammar), `write_session_file` followed by `load_session_file` into a fresh namespace recovers each user's three mappings byte-for-byte. -/
theorem write_then_load_roundtrip (app : Application) (fs : FS)
    (ns : HyNamespace)
    (hfresh : fs (get_project_file app.name "_userdata.hy") = none)
    (hnodup : (app.users.users.map Prod.fst).Nodup) :
    ∃ fs2 ns2,
      app.write_session_file fs ns = .ok (fs2, ns) ∧
      app.load_session_file fs2 [] = .ok ns2 ∧
      ∀ p ∈ app.users.users,
        nsLookupDict2 ns2 "_cookies" p.1 = some p.2.cookies ∧
        nsLookupDict2 ns2 "_headers" p.1 = some p.2.headers ∧
        nsLookupDict2 ns2 "_data" p.1 = some p.2.data := by
  have hload : app.load_session_file fs ns = .ok ns := by
    simp [Application.load_session_file, hfresh]
  refine ⟨setFile fs (get_project_file app.name "_userdata.hy")
      (String.mk (sessionValue app.users)),
      (sessionExprs app.users).foldl evalExpr [], ?_, ?_, ?_⟩
  · rw [Application.write_session_file, hload]
  · rw [load_session_file_setFile, sessionValue,
        readLoop_full _ [] (sessionExprs_names app.users)]
  · intro p hp
    have hfold : (sessionExprs app.users).foldl evalExpr []
        = [("_data", PVal.dict2 (app.users.users.map fun q => (q.1, q.2.data))),
           ("_headers", PVal.dict2 (app.users.users.map fun q => (q.1, q.2.headers))),
           ("_cookies", PVal.dict2 (app.users.users.map fun q => (q.1, q.2.cookies)))] := by
      simp [sessionExprs, evalExpr]
    rw [hfold]
    have hb1 : (("_cookies" : String) == "_data") = false := by decide
    have hb2 : (("_cookies" : String) == "_headers") = false := by decide
    have hb3 : (("_cookies" : String) == "_cookies") = true := by decide
    have hb4 : (("_headers" : String) == "_data") = false := by decide
    have hb5 : (("_headers" : String) == "_headers") = true := by decide
    have hb6 : (("_data" : String) == "_data") = true := by decide
    refine ⟨?_, ?_, ?_⟩
    · rw [nsLookupDict2]
      simp only [List.lookup, hb1, hb2, hb3]
      exact lookup_map_fst (fun u => u.cookies) app.users.users p hp hnodup
    · rw [nsLookupDict2]
      simp only [List.lookup, hb4, hb5]
      exact lookup_map_fst (fun u => u.headers) app.users.users p hp hnodup
    · rw [nsLookupDict2]
      simp only [List.lookup, hb6]
      exact lookup_map_fst (fun u => u.data) app.users.users p hp hnodup

theorem write_then_load_roundtrip_witness :
    ∃ fs2 ns2,
      appW.write_session_file fsEmpty [] = .ok (fs2, []) ∧
      appW.load_session_file fs2 [] = .ok ns2 ∧
      ∀ p ∈ appW.users.users,
        nsLookupDict2 ns2 "_cookies" p.1 = some p.2.cookies ∧
        nsLookupDict2 ns2 "_headers" p.1 = some p.2.headers ∧
        nsLookupDict2 ns2 "_data" p.1 = some p.2.data :=
  write_then_load_roundtrip appW fsEmpty [] rfl (by decide)

/-- C2: during `load_session_file`, a malformed expression mid-stream is not caught: the parse failure propagates and aborts the load, while reaching end of stream (only whitespace left, the `EOFError` case) terminates the read loop without an error. -/
theorem load_malformed_aborts_eof_ok (app : Application) (fs : FS)
    (ns : HyNamespace) (es : List HExpr) (bad tail : List Char)
    (hnames : ∀ e ∈ es, symNameB e.name = true)
    (hbad : hyRead bad = .error .malformed)
    (htail : dropWs tail = []) :
    app.load_session_file
        (setFile fs (get_project_file app.name "_userdata.hy")
          (String.mk (serExprs es ++ bad))) ns = .error .parseFailure ∧
    app.load_session_file
        (setFile fs (get_project_file app.name "_userdata.hy")
          (String.mk (serExprs es ++ tail))) ns
      = .ok (es.foldl evalExpr ns) := by
  have hle := serExprs_len es
  constructor
  · rw [load_session_file_setFile]
    obtain ⟨f2, hf2⟩ : ∃ f2, (serExprs es ++ bad).length + 1
        = es.length + (f2 + 1) :=
      ⟨(serExprs es).length + bad.length - es.length, by
        simp only [List.length_append]; omega⟩
    rw [hf2, readLoop_serExprs es (f2 + 1) ns bad hnames, readLoop, hbad]
  · rw [load_session_file_setFile]
    obtain ⟨f2, hf2⟩ : ∃ f2, (serExprs es ++ tail).length + 1
        = es.length + (f2 + 1) :=
      ⟨(serExprs es).length + tail.length - es.length, by
        simp only [List.length_append]; omega⟩
    rw [hf2, readLoop_serExprs es (f2 + 1) ns tail hnames,
        readLoop_ws_done f2 _ tail htail]

set_option maxRecDepth 10000 in
theorem load_malformed_aborts_eof_ok_witness :
    appW.load_session_file
        (setFile fsEmpty (get_project_file appW.name "_userdata.hy")
          (String.mk (serExprs [{ name := "_cookies", value := .dict2 [] }]
            ++ "(garbage".data))) [] = .error .parseFailure ∧
    appW.load_session_file
        (setFile fsEmpty (get_project_file appW.name "_userdata.hy")
          (String.mk (serExprs [{ name := "_cookies", value := .dict2 [] }]
            ++ " \n ".data))) []
      = .ok ([{ name := "_cookies", value := .dict2 [] }].foldl evalExpr []) :=
  load_malformed_aborts_eof_ok appW fsEmpty []
    [{ name := "_cookies", value := .dict2 [] }] "(garbage".data " \n ".data
    (by intro e he; simp at he; subst he; decide) (by decide) (by decide)

/-- C3: `load_session_file` against a project whose session file does not exist raises no error and leaves the state exactly as it was before the call (in particular, all per-user mappings stay empty). -/
theorem load_missing_session_noop (app : Application) (fs : FS)
    (ns : HyNamespace)
    (habsent : fs (get_project_file app.name "_userdata.hy") = none) :
    app.load_session_file fs ns = .ok ns := by
  simp [Application.load_session_file, habsent]

theorem load_missing_session_noop_witness :
    appW.load_session_file fsEmpty [] = .ok [] :=
  load_missing_session_noop appW fsEmpty [] rfl

/-- C4: the read loop evaluates each expression immediately as it is read (one `readLoop` step consumes exactly one serialized expression before touching the rest of the stream), and loading a written session file yields a namespace binding exactly the three recognized top-level names `_cookies`, `_headers`, `_data` and nothing else. -/
theorem load_streaming_three_names (app : Application) (fs : FS)
    (store : UserStore) (e : HExpr) (rest : List Char) (ns : HyNamespace)
    (fuel : Nat) (hname : symNameB e.name = true) :
    readLoop (fuel + 1) ns (serExpr e ++ rest)
      = readLoop fuel (evalExpr ns e) ('\n' :: rest) ∧
    app.load_session_file
        (setFile fs (get_project_file app.name "_userdata.hy")
          (String.mk (sessionValue store))) []
      = .ok [("_data", PVal.dict2 (store.users.map fun q => (q.1, q.2.data))),
             ("_headers",
               PVal.dict2 (store.users.map fun q => (q.1, q.2.headers))),
             ("_cookies",
               PVal.dict2 (store.users.map fun q => (q.1, q.2.cookies)))] := by
  constructor
  · exact readLoop_ser_step fuel ns e rest hname
  · rw [load_session_file_setFile, sessionValue,
        readLoop_full _ [] (sessionExprs_names store)]
    simp [sessionExprs, evalExpr]

set_option maxRecDepth 10000 in
theorem load_streaming_three_names_witness :
    readLoop 1 [] (serExpr { name := "_cookies", value := .dict2 [] } ++ [])
      = readLoop 0 (evalExpr [] { name := "_cookies", value := .dict2 [] })
          ['\n'] ∧
    appW.load_session_file
        (setFile fsEmpty (get_project_file appW.name "_userdata.hy")
          (String.mk (sessionValue storeW))) []
      = .ok [("_data", PVal.dict2 (storeW.users.map fun q => (q.1, q.2.data))),
             ("_headers",
               PVal.dict2 (storeW.users.map fun q => (q.1, q.2.headers))),
             ("_cookies",
               PVal.dict2 (storeW.users.map fun q => (q.1, q.2.cookies)))] :=
  load_streaming_three_names appW fsEmpty storeW
    { name := "_cookies", value := .dict2 [] } [] [] 0 (by decide)

/-- C5, counterexample: a config carrying the explicit active-user value `\"\"`, naming a username present in the UserStore, does not make that user active: Python truthiness treats the empty string like an absent override and construction falls back to the store default. -/
theorem active_user_empty_override_cex :
    outW5.active_user = some "" ∧ storeW2.lookup "" = some userW3 ∧
    (Application.init none cfgW outW5).map (fun a => a.active_user)
      = .ok userW2 ∧ userW2 ≠ userW3 := by
  refine ⟨rfl, by decide, by decide, by decide⟩

/-- C5, amended: if the loaded config carries an explicit non-empty active-user value naming a username present in the UserStore, the orchestrator's active user equals that user regardless of the store's own default; with no override the active user equals the store's default. -/
theorem active_user_precedence_amended (nameArg : Option String) (cfg : Config)
    (output : ConfigOutput) (store : UserStore) (auth : AuthData)
    (burl : String)
    (hstore : output.users = some store)
    (hauth : output.authentication = some auth)
    (hbase : output.base_url = some burl) :
    (∀ s u, output.active_user = some s → s ≠ "" → store.lookup s = some u →
        ∃ app, Application.init nameArg cfg output = .ok app ∧
          app.active_user = u) ∧
    (output.active_user = none →
        ∃ app, Application.init nameArg cfg output = .ok app ∧
          app.active_user = store.active) := by
  constructor
  · intro s u hs hne hu
    have hbe : (s == "") = false := by simpa [beq_eq_false_iff_ne] using hne
    simp only [Application.init, hstore, hauth, hbase, hs, pyTruthyStr,
      Option.getD_some, hbe, Bool.not_false, if_true, hu]
    exact ⟨_, rfl, rfl⟩
  · intro hnone
    simp only [Application.init, hstore, hauth, hbase, hnone, pyTruthyStr,
      Bool.false_eq_true, if_false]
    exact ⟨_, rfl, rfl⟩

theorem active_user_precedence_amended_witness :
    (∃ app, Application.init none cfgW outW5b = .ok app ∧
        app.active_user = userW1) ∧
    (∃ app, Application.init none cfgW outW8 = .ok app ∧
        app.active_user = storeW.active) :=
  ⟨(active_user_precedence_amended none cfgW outW5b storeW [] "http://x"
      rfl rfl rfl).1 "alice" userW1 rfl (by decide) (by decide),
   (active_user_precedence_amended none cfgW outW8 storeW [] "http://x"
      rfl rfl rfl).2 rfl⟩

/-- C6, counterexample: `authenticate` with the username `\"\"`, present in the UserStore, does not set the active user to that user and raises no lookup error: Python truthiness silently ignores the empty username, the prior active user is kept and passed to the runner. -/
theorem authenticate_empty_username_cex :
    storeW2.lookup "" = some userW3 ∧
    (appW2.authenticate fsEmpty (fun u _ => u) (some "")).map
        (fun r => (r.1.active_user, r.2.2)) = .ok (userW2, userW2) ∧
    userW2 ≠ userW3 := by
  refine ⟨by decide, by decide, by decide⟩

/-- C6, amended: `authenticate` with a non-empty username present in the UserStore sets the active user to that user regardless of the prior active user and passes exactly that user's record to the authentication runner; a non-empty username absent from the UserStore fails with a lookup error carrying that username. -/
theorem authenticate_override_amended (app : Application) (fs : FS)
    (runner : User → Config → User) (s : String) (hne : s ≠ "") :
    (∀ u, app.users.lookup s = some u →
        ∃ fs3, app.authenticate fs runner (some s)
          = .ok ({ app with active_user := runner u app.config }, fs3, u)) ∧
    (app.users.lookup s = none →
        app.authenticate fs runner (some s) = .error (.keyError s)) := by
  have hbe : (s == "") = false := by simpa [beq_eq_false_iff_ne] using hne
  constructor
  · intro u hu
    simp only [Application.authenticate, pyTruthyStr, hbe, Bool.not_false,
      if_true, Option.getD_some, hu]
    exact ⟨_, rfl⟩
  · intro hu
    simp only [Application.authenticate, pyTruthyStr, hbe, Bool.not_false,
      if_true, Option.getD_some, hu]

theorem authenticate_override_amended_witness :
    (∃ fs3, appW.authenticate fsEmpty (fun u _ => u) (some "alice")
        = .ok ({ appW with active_user := userW1 }, fs3, userW1)) ∧
    appW.authenticate fsEmpty (fun u _ => u) (some "carol")
      = .error (.keyError "carol") :=
  ⟨(authenticate_override_amended appW fsEmpty (fun u _ => u) "alice"
      (by decide)).1 userW1 (by decide),
   (authenticate_override_amended appW fsEmpty (fun u _ => u) "carol"
      (by decide)).2 (by decide)⟩

/-- C7: every successful `authenticate` call persists the active-user marker to the project file after the run, and changes no other file: in particular the on-disk session file is unchanged. -/
theorem authenticate_writes_project_only (app : Application) (fs : FS)
    (runner : User → Config → User) (username : Option String)
    (app3 : Application) (fs3 : FS) (passed : User)
    (h : app.authenticate fs runner username = .ok (app3, fs3, passed)) :
    fs3 (get_project_file app.name "_project.hy")
      = some (String.mk (projectValue app3)) ∧
    fs3 (get_project_file app.name "_userdata.hy")
      = fs (get_project_file app.name "_userdata.hy") ∧
    ∀ f, f ≠ get_project_file app.name "_project.hy" → fs3 f = fs f := by
  have main : ∀ b : Application, b.name = app.name → fs3 = b.write_project_file fs →
      app3 = b →
      fs3 (get_project_file app.name "_project.hy")
        = some (String.mk (projectValue app3)) ∧
      fs3 (get_project_file app.name "_userdata.hy")
        = fs (get_project_file app.name "_userdata.hy") ∧
      ∀ f, f ≠ get_project_file app.name "_project.hy" → fs3 f = fs f := by
    intro b hb hfs3 happ3
    subst hfs3; subst happ3
    rw [Application.write_project_file, hb]
    refine ⟨by simp [setFile], ?_, ?_⟩
    · show setFile fs _ _ _ = _
      rw [setFile, if_neg (get_project_file_ne app.name)]
    · intro f hf
      show setFile fs _ _ _ = _
      rw [setFile, if_neg hf]
  rw [Application.authenticate] at h
  by_cases ht : pyTruthyStr username = true
  · rw [if_pos ht] at h
    rcases hlk : app.users.lookup (username.getD "") with _ | u
    · rw [hlk] at h
      simp at h
    · rw [hlk] at h
      simp only [Except.ok.injEq, Prod.mk.injEq] at h
      obtain ⟨h1, h2, h3⟩ := h
      refine main _ ?_ h2.symm h1.symm
      rfl
  · rw [if_neg ht] at h
    simp only [Except.ok.injEq, Prod.mk.injEq] at h
    obtain ⟨h1, h2, h3⟩ := h
    refine main _ ?_ h2.symm h1.symm
    rfl

theorem authenticate_writes_project_only_witness :
    (appW.write_project_file fsEmpty) (get_project_file appW.name "_project.hy")
      = some (String.mk (projectValue appW)) ∧
    (appW.write_project_file fsEmpty) (get_project_file appW.name "_userdata.hy")
      = fsEmpty (get_project_file appW.name "_userdata.hy") :=
  ⟨(authenticate_writes_project_only appW fsEmpty (fun u _ => u) none appW
      (appW.write_project_file fsEmpty) userW2 rfl).1,
   (authenticate_writes_project_only appW fsEmpty (fun u _ => u) none appW
      (appW.write_project_file fsEmpty) userW2 rfl).2.1⟩

/-- C8: construction fails with a key error whenever any of the required keys (users, authentication procedure, base URL) is absent from the loaded config, and absence of the optional keys (non-auth procedure set, active-user override) causes no failure: the active user falls back to the store default and the functions attribute stays unassigned. -/
theorem init_required_optional (nameArg : Option String) (cfg : Config)
    (output : ConfigOutput) :
    ((output.users = none ∨ output.authentication = none ∨
        output.base_url = none) →
      ∃ e, Application.init nameArg cfg output = .error e) ∧
    (∀ store auth burl, output.users = some store →
        output.authentication = some auth → output.base_url = some burl →
        output.active_user = none → output.functions = none →
        ∃ app, Application.init nameArg cfg output = .ok app ∧
          app.users = store ∧ app.active_user = store.active ∧
          app.authentication = auth ∧ app.functions = none ∧
          app.base_url = burl) := by
  constructor
  · intro hreq
    rcases housers : output.users with _ | store
    · exact ⟨.keyError "_users", by simp [Application.init, housers]⟩
    · by_cases hact : pyTruthyStr output.active_user = true
      · rcases hlk : store.lookup (output.active_user.getD "") with _ | u
        · exact ⟨.keyError (output.active_user.getD ""),
            by simp [Application.init, housers, hact, hlk]⟩
        · rcases hauth : output.authentication with _ | auth
          · exact ⟨.keyError "_authentication",
              by simp [Application.init, housers, hact, hlk, hauth]⟩
          · rcases hbase : output.base_url with _ | burl
            · exact ⟨.keyError "_base_url",
                by simp [Application.init, housers, hact, hlk, hauth, hbase]⟩
            · rcases hreq with h | h | h
              · rw [housers] at h; cases h
              · rw [hauth] at h; cases h
              · rw [hbase] at h; cases h
      · have hact2 : pyTruthyStr output.active_user = false := by
          revert hact; cases pyTruthyStr output.active_user <;> simp
        rcases hauth : output.authentication with _ | auth
        · exact ⟨.keyError "_authentication",
            by simp [Application.init, housers, hact2, hauth]⟩
        · rcases hbase : output.base_url with _ | burl
          · exact ⟨.keyError "_base_url",
              by simp [Application.init, housers, hact2, hauth, hbase]⟩
          · rcases hreq with h | h | h
            · rw [housers] at h; cases h
            · rw [hauth] at h; cases h
            · rw [hbase] at h; cases h
  · intro store auth burl hstore hauth hbase hact hfn
    simp only [Application.init, hstore, hauth, hbase, hact, hfn, pyTruthyStr,
      pyTruthyFunc, Bool.false_eq_true, if_false]
    exact ⟨_, rfl, rfl, rfl, rfl, rfl, rfl⟩

theorem init_required_optional_witness :
    (∃ e, Application.init none cfgW outW8bad = .error e) ∧
    (∃ app, Application.init none cfgW outW8 = .ok app ∧
        app.users = storeW ∧ app.active_user = storeW.active ∧
        app.authentication = [] ∧ app.functions = none ∧
        app.base_url = "http://x") :=
  ⟨(init_required_optional none cfgW outW8bad).1 (Or.inl rfl),
   (init_required_optional none cfgW outW8).2 storeW [] "http://x"
     rfl rfl rfl rfl rfl⟩

/-- C9: calling `write_project_file` twice with no intervening state change is idempotent: the second call leaves the filesystem exactly as the first, and the written project file reloads to the active username. -/
theorem write_project_file_idempotent_reload (app : Application) (fs : FS) :
    app.write_project_file (app.write_project_file fs)
      = app.write_project_file fs ∧
    readActiveUser (app.write_project_file fs) app.name
      = some app.active_user.username := by
  constructor
  · funext f
    by_cases hf : f = get_project_file app.name "_project.hy" <;>
      simp [Application.write_project_file, setFile, hf]
  · have hv : app.write_project_file fs (get_project_file app.name "_project.hy")
        = some (String.mk (projectValue app)) := by
      simp [Application.write_project_file, setFile]
    have hrd : hyRead (projectValue app)
        = .ok ({ name := "_active_user",
                 value := .str app.active_user.username }, ['\n']) :=
      hyRead_ser_nil _ (by show symNameB "_active_user" = true; decide)
    rw [readActiveUser, hv]
    simp [hrd]

/-- C10: when the loaded config has no `_functions` key, construction succeeds without ever assigning the functions attribute, so any subsequent access to it fails with an attribute-lookup error. -/
theorem functions_attribute_unassigned (nameArg : Option String) (cfg : Config)
    (output : ConfigOutput) (app : Application)
    (hfn : output.functions = none)
    (hinit : Application.init nameArg cfg output = .ok app) :
    app.functions = none ∧ app.getFunctions = .error .attributeError := by
  rcases housers : output.users with _ | store
  · simp [Application.init, housers] at hinit
  · by_cases hact : pyTruthyStr output.active_user = true
    · rcases hlk : store.lookup (output.active_user.getD "") with _ | u
      · simp [Application.init, housers, hact, hlk] at hinit
      · rcases hauth : output.authentication with _ | auth
        · simp [Application.init, housers, hact, hlk, hauth] at hinit
        · rcases hbase : output.base_url with _ | burl
          · simp [Application.init, housers, hact, hlk, hauth, hbase] at hinit
          · simp only [Application.init, housers, hact, hlk, hauth, hbase,
              hfn, pyTruthyFunc, if_true, Bool.false_eq_true, if_false] at hinit
            injection hinit with h
            subst h
            exact ⟨rfl, rfl⟩
    · have hact2 : pyTruthyStr output.active_user = false := by
        revert hact; cases pyTruthyStr output.active_user <;> simp
      rcases hauth : output.authentication with _ | auth
      · simp [Application.init, housers, hact2, hauth] at hinit
      · rcases hbase : output.base_url with _ | burl
        · simp [Application.init, housers, hact2, hauth, hbase] at hinit
        · simp only [Application.init, housers, hact2, hauth, hbase,
            hfn, pyTruthyFunc, Bool.false_eq_true, if_false] at hinit
          injection hinit with h
          subst h
          exact ⟨rfl, rfl⟩

set_option maxRecDepth 10000 in
theorem functions_attribute_unassigned_witness :
    appMin.functions = none ∧ appMin.getFunctions = .error .attributeError :=
  functions_attribute_unassigned none cfgW outW8 appMin rfl (by decide)
